import Mathlib

/-!
Verification of the reed-solomon-codec data-framing and shard-layout protocol.

The development shallowly embeds `src/main.rs`: bytes are natural numbers
(values below 256 in well-formed data), byte buffers are `List Nat`, and every
fallible Rust function returning `Result<_, ReedSolomonError>` becomes a Lean
function into `Except RSError _`.  The external erasure-coding primitive
(`reed_solomon_erasure::galois_8::ReedSolomon`) is not part of this repository;
its contract is modelled from the specification and passed in as an explicit
parameter where it is needed.
-/

namespace RSCodec

/-- Embeds `struct ShardLimits { min, max }`. -/
structure ShardLimits where
  min : Nat
  max : Nat
deriving Repr, DecidableEq

/-- Embeds `const SHARD_LIMITS: ShardLimits = ShardLimits::new(1, 256)`. -/
def SHARD_LIMITS : ShardLimits := ⟨1, 256⟩

/-- Embeds `struct DataSizeLimits { min, max }`. -/
structure DataSizeLimits where
  min : Nat
  max : Nat
deriving Repr, DecidableEq

/-- Embeds `const DATA_SIZE_LIMITS: DataSizeLimits = DataSizeLimits::new(1, 1 << 32)`;
`1 << 32 = 2 ^ 32`. -/
def DATA_SIZE_LIMITS : DataSizeLimits := ⟨1, 2 ^ 32⟩

/-- Embeds `enum ReedSolomonError`; each variant carries its message string. -/
inductive RSError where
  | InvalidShardCount : String → RSError
  | InvalidDataSize : String → RSError
  | CodecError : String → RSError
  | EncodingError : String → RSError
  | DecodingError : String → RSError
deriving Repr, DecidableEq

/-- Embeds the two `std::io::ErrorKind` values reachable from
`impl From<ReedSolomonError> for io::Error`. -/
inductive IoErrorKind where
  | InvalidInput : IoErrorKind
  | Other : IoErrorKind
deriving Repr, DecidableEq

/-- Embeds the `match` in `impl From<ReedSolomonError> for io::Error`:
`InvalidShardCount` and `InvalidDataSize` map to `ErrorKind::InvalidInput`,
everything else to `ErrorKind::Other`. -/
def ioKindOf : RSError → IoErrorKind
  | RSError.InvalidShardCount _ => IoErrorKind.InvalidInput
  | RSError.InvalidDataSize _ => IoErrorKind.InvalidInput
  | _ => IoErrorKind.Other

/-- Embeds `struct EncoderConfig { data_shards, parity_shards, total_shards }`. -/
structure EncoderConfig where
  data_shards : Nat
  parity_shards : Nat
  total_shards : Nat
deriving Repr, DecidableEq

/-- Embeds `EncoderConfig::is_valid_shard_count`:
`(SHARD_LIMITS.min..=SHARD_LIMITS.max).contains(&count)`. -/
def is_valid_shard_count (count : Nat) : Bool :=
  SHARD_LIMITS.min ≤ count && count ≤ SHARD_LIMITS.max

/-- Embeds `EncoderConfig::new`: validates `data_shards`, then `parity_shards`,
then the total, and otherwise constructs the config. -/
def EncoderConfig.new (data_shards parity_shards : Nat) :
    Except RSError EncoderConfig :=
  if ¬ is_valid_shard_count data_shards then
    Except.error (RSError.InvalidShardCount
      "Data shards must be between 1 and 256")
  else if ¬ is_valid_shard_count parity_shards then
    Except.error (RSError.InvalidShardCount
      "Parity shards must be between 1 and 256")
  else
    let total_shards := data_shards + parity_shards
    if total_shards > SHARD_LIMITS.max then
      Except.error (RSError.InvalidShardCount
        "Total shards exceeds maximum allowed")
    else
      Except.ok ⟨data_shards, parity_shards, total_shards⟩

/-- Every invariant `EncoderConfig::new` establishes on a config it returns;
used as the hypothesis "the codec is valid" in the theorems below. -/
def EncoderConfig.Valid (c : EncoderConfig) : Prop :=
  1 ≤ c.data_shards ∧ 1 ≤ c.parity_shards ∧
    c.total_shards = c.data_shards + c.parity_shards ∧ c.total_shards ≤ 256

instance (c : EncoderConfig) : Decidable c.Valid := by
  unfold EncoderConfig.Valid
  infer_instance

/-- Modelled from the spec: the constructor of the external erasure-coding
primitive (`reed_solomon_erasure::galois_8::ReedSolomon::new`, not part of this
repository).  Per the spec it is "constructed from (data_shards, parity_shards)"
over GF(2^8), independently rejecting incompatible shard counts: both counts
must be positive and their sum must fit the 256-element field; in particular
`Codec.new(1,1)` and `Codec.new(255,1)` succeed. -/
def primitiveNew (data_shards parity_shards : Nat) : Option Unit :=
  if 1 ≤ data_shards ∧ 1 ≤ parity_shards ∧ data_shards + parity_shards ≤ 256 then
    Option.some ()
  else
    Option.none

/-- Embeds `ReedSolomonCodec::new`: build the `EncoderConfig`, then construct
the erasure-coding primitive, surfacing its failure as `CodecError`.  The
returned codec state is its config (the primitive itself is external). -/
def ReedSolomonCodec.new (data_shards parity_shards : Nat) :
    Except RSError EncoderConfig :=
  match EncoderConfig.new data_shards parity_shards with
  | Except.error e => Except.error e
  | Except.ok config =>
    match primitiveNew config.data_shards config.parity_shards with
    | Option.none => Except.error (RSError.CodecError "codec construction failed")
    | Option.some _ => Except.ok config

/-- Embeds `BigEndian::write_u32` applied to `data.len() as u32`: the four
big-endian bytes of the value; the `% 256` per byte realises the `as u32`
truncation (for `n < 2 ^ 32` these are exactly the big-endian digits of `n`). -/
def writeU32BE (n : Nat) : List Nat :=
  [n / 2 ^ 24 % 256, n / 2 ^ 16 % 256, n / 2 ^ 8 % 256, n % 256]

/-- Embeds `BigEndian::read_u32` on a 4-byte slice. -/
def readU32BE (bytes : List Nat) : Nat :=
  bytes.getD 0 0 * 2 ^ 24 + bytes.getD 1 0 * 2 ^ 16 +
    bytes.getD 2 0 * 2 ^ 8 + bytes.getD 3 0

namespace DataProcessor

/-- Embeds `DataProcessor::validate_data_size`:
`(DATA_SIZE_LIMITS.min..=DATA_SIZE_LIMITS.max).contains(&data.len())`. -/
def validate_data_size (data : List Nat) : Except RSError Unit :=
  if ¬ (DATA_SIZE_LIMITS.min ≤ data.length ∧ data.length ≤ DATA_SIZE_LIMITS.max) then
    Except.error (RSError.InvalidDataSize
      "Data size must be between 1 and 4294967296")
  else
    Except.ok ()

/-- Embeds `DataProcessor::prepare_data`: validate, then return the 4-byte
big-endian length of `data` (as `u32`) followed by `data`. -/
def prepare_data (data : List Nat) : Except RSError (List Nat) :=
  match validate_data_size data with
  | Except.error e => Except.error e
  | Except.ok _ => Except.ok (writeU32BE data.length ++ data)

/-- Embeds `data.chunks(sz)`: consecutive chunks of length `sz`, the last one
possibly shorter.  `sz = 0` (on which the Rust iterator panics, unreachable
here) yields `[]`. -/
def chunksList (sz : Nat) : List Nat → List (List Nat)
  | [] => []
  | a :: rest =>
    if _h : sz = 0 then []
    else (a :: rest).take sz :: chunksList sz ((a :: rest).drop sz)
termination_by l => l.length
decreasing_by
  simp only [List.length_drop, List.length_cons]
  omega

/-- Embeds the copy loop of `DataProcessor::split_into_shards`:
`for (i, chunk) in chunks { shards[i][..chunk.len()].copy_from_slice(chunk) }`,
overwriting the first `chunk.len()` bytes of the zero-filled shard `i`. -/
def copyChunks (sz : Nat) :
    List (List Nat) → Nat → List (List Nat) → List (List Nat)
  | [], _, shards => shards
  | c :: cs, i, shards =>
    copyChunks sz cs (i + 1) (shards.set i (c ++ List.replicate (sz - c.length) 0))

/-- Embeds `DataProcessor::split_into_shards`:
`shard_size = (len + data_shards - 1) / data_shards`; allocate `total_shards`
zero shards of that size; copy the first `data_shards` chunks of `data` in. -/
def split_into_shards (data : List Nat) (data_shards total_shards : Nat) :
    Except RSError (List (List Nat)) :=
  let shard_size := (data.length + data_shards - 1) / data_shards
  Except.ok (copyChunks shard_size ((chunksList shard_size data).take data_shards) 0
    (List.replicate total_shards (List.replicate shard_size 0)))

/-- Embeds `DataProcessor::validate_and_split_shares`: reject empty input and
input whose length is not divisible by `total_shards`; otherwise slice into
`total_shards` consecutive shares of `share_size = len / total_shards` bytes. -/
def validate_and_split_shares (data : List Nat) (total_shards : Nat) :
    Except RSError (List (List Nat)) :=
  if data.isEmpty then
    Except.error (RSError.InvalidDataSize "Empty data")
  else if data.length % total_shards ≠ 0 then
    Except.error (RSError.InvalidDataSize
      "Data length not divisible by total shards")
  else
    let share_size := data.length / total_shards
    Except.ok ((List.range total_shards).map (fun i =>
      (data.drop (i * share_size)).take share_size))

/-- Embeds `DataProcessor::extract_original_data`: reject fewer than 4 bytes;
read the big-endian `u32` size from the first 4 bytes; reject it when it
exceeds the remaining byte count; otherwise return `decoded[4 .. 4 + size]`. -/
def extract_original_data (decoded : List Nat) : Except RSError (List Nat) :=
  if decoded.length < 4 then
    Except.error (RSError.DecodingError "Data too short")
  else
    let original_size := readU32BE (decoded.take 4)
    if original_size > decoded.length - 4 then
      Except.error (RSError.DecodingError "Invalid size prefix")
    else
      Except.ok ((decoded.drop 4).take original_size)

end DataProcessor

/-- Modelled from the spec: contract of the `encode` operation of the external
erasure-coding primitive (the in-place parity fill of `reed_solomon_erasure`,
not part of this repository).  Per the spec it "fills parity shards from data
shards" over a mutable shard set of equal-length shards: it succeeds, keeps
the number of shards, keeps the length of every shard, and leaves the first
`data_shards` (data) shards verbatim. -/
def PrimSpec (data_shards : Nat)
    (prim : List (List Nat) → Option (List (List Nat))) : Prop :=
  ∀ ss, ∃ out, prim ss = Option.some out ∧ out.length = ss.length ∧
    out.map List.length = ss.map List.length ∧
    out.take data_shards = ss.take data_shards

/-- The no-op parity filler (the "identity/no-op parity filler" fake primitive
suggested by the spec); used to instantiate `PrimSpec` at concrete inputs. -/
def idPrim : List (List Nat) → Option (List (List Nat)) :=
  fun ss => Option.some ss

/-- Embeds `ReedSolomonCodec::encode`: frame the payload, split it into shards,
run the parity fill of the primitive (failure surfaces as `EncodingError`), and
flatten the shard set in index order. -/
def ReedSolomonCodec.encode (config : EncoderConfig)
    (prim : List (List Nat) → Option (List (List Nat))) (data : List Nat) :
    Except RSError (List Nat) :=
  match DataProcessor.prepare_data data with
  | Except.error e => Except.error e
  | Except.ok encoded_data =>
    match DataProcessor.split_into_shards encoded_data
        config.data_shards config.total_shards with
    | Except.error e => Except.error e
    | Except.ok shards =>
      match prim shards with
      | Option.none => Except.error (RSError.EncodingError "encoding failed")
      | Option.some filled => Except.ok filled.flatten

/-- Embeds the copy loop of `ReedSolomonCodec::decode`:
`decode_shards[i].copy_from_slice(share)` writes `share` over the `sz`-byte
chunk `i` of the flat decode buffer. -/
def copyShares (sz : Nat) : List (List Nat) → Nat → List Nat → List Nat
  | [], _, buf => buf
  | s :: ss, i, buf =>
    copyShares sz ss (i + 1) (buf.take (i * sz) ++ s ++ buf.drop (i * sz + sz))

/-- Embeds `ReedSolomonCodec::decode`: validate and slice the buffer into
shares, take `shard_size = shares[0].len()`, copy the first `data_shards`
shares into a flat `shard_size * data_shards` buffer, and extract the original
payload from it.  `shares[0]` is embedded as `headD` (in-boundedness is proved,
not assumed). -/
def ReedSolomonCodec.decode (config : EncoderConfig) (data : List Nat) :
    Except RSError (List Nat) :=
  match DataProcessor.validate_and_split_shares data config.total_shards with
  | Except.error e => Except.error e
  | Except.ok shares =>
    let shard_size := (shares.headD []).length
    let decode_buffer := List.replicate (shard_size * config.data_shards) 0
    DataProcessor.extract_original_data
      (copyShares shard_size (shares.take config.data_shards) 0 decode_buffer)

/-- Decides whether a result is an `InvalidShardCount` error. -/
def isInvalidShardCountErr {α : Type} : Except RSError α → Bool
  | Except.error (RSError.InvalidShardCount _) => true
  | _ => false

/-- Decides whether a result is an `InvalidDataSize` error. -/
def isInvalidDataSizeErr {α : Type} : Except RSError α → Bool
  | Except.error (RSError.InvalidDataSize _) => true
  | _ => false

/-- Decides whether a result is a `DecodingError`. -/
def isDecodingErr {α : Type} : Except RSError α → Bool
  | Except.error (RSError.DecodingError _) => true
  | _ => false

/-! ## Arithmetic and list lemmas -/

theorem idPrim_spec (d : Nat) : PrimSpec d idPrim :=
  fun ss => ⟨ss, rfl, rfl, rfl, rfl⟩

theorem writeU32BE_length (n : Nat) : (writeU32BE n).length = 4 := rfl

theorem readU32BE_writeU32BE (n : Nat) (h : n < 2 ^ 32) :
    readU32BE (writeU32BE n) = n := by
  simp only [writeU32BE, readU32BE, List.getD_cons_zero, List.getD_cons_succ]
  norm_num
  omega

theorem le_mul_ceil (L d : Nat) (hd : d ≠ 0) : L ≤ d * ((L + d - 1) / d) := by
  have h1 := Nat.div_add_mod (L + d - 1) d
  have h2 : (L + d - 1) % d < d := Nat.mod_lt _ (by omega)
  generalize hq : (L + d - 1) / d = q at h1 ⊢
  generalize hr : (L + d - 1) % d = r at h1 h2
  omega

theorem ceil_pos (L d : Nat) (hd : d ≠ 0) (hL : 1 ≤ L) :
    1 ≤ (L + d - 1) / d := by
  rw [Nat.le_div_iff_mul_le (by omega)]
  omega

theorem ceil_le_of_le_mul (L d sz : Nat) (hsz : sz ≠ 0) (h : L ≤ d * sz) :
    (L + sz - 1) / sz ≤ d := by
  have h1 : L + sz - 1 ≤ d * sz + (sz - 1) := by omega
  calc (L + sz - 1) / sz ≤ (d * sz + (sz - 1)) / sz := Nat.div_le_div_right h1
    _ = (sz * d + (sz - 1)) / sz := by rw [Nat.mul_comm]
    _ = d + (sz - 1) / sz := Nat.mul_add_div (by omega) d (sz - 1)
    _ = d := by rw [Nat.div_eq_of_lt (by omega), Nat.add_zero]

theorem ceil_succ (sz n : Nat) (hsz : sz ≠ 0) (hn : 1 ≤ n) :
    (n - sz + sz - 1) / sz + 1 = (n + sz - 1) / sz := by
  rcases le_or_lt sz n with h | h
  · have e1 : n - sz + sz - 1 = n - 1 := by omega
    have e2 : n + sz - 1 = (n - 1) + sz := by omega
    rw [e1, e2, Nat.add_div_right _ (by omega)]
  · have e1 : n - sz + sz - 1 = sz - 1 := by omega
    have e2 : (n + sz - 1) / sz = 1 := Nat.div_eq_of_lt_le (by omega) (by omega)
    rw [e1, Nat.div_eq_of_lt (by omega), e2]

namespace DataProcessor

theorem chunksList_nil (sz : Nat) : chunksList sz [] = [] := by
  unfold chunksList
  rfl

theorem chunksList_cons (sz : Nat) (a : Nat) (rest : List Nat) :
    chunksList sz (a :: rest) =
      if sz = 0 then []
      else (a :: rest).take sz :: chunksList sz ((a :: rest).drop sz) := by
  rw [chunksList]
  simp

theorem chunksList_flatten (sz : Nat) (hsz : sz ≠ 0) (l : List Nat) :
    (chunksList sz l).flatten = l := by
  induction l using chunksList.induct sz with
  | case1 => simp [chunksList_nil]
  | case2 a rest h => exact absurd h hsz
  | case3 a rest h ih =>
    rw [chunksList_cons, if_neg hsz, List.flatten_cons, ih, List.take_append_drop]

theorem chunksList_mem_length (sz : Nat) (l : List Nat) (c : List Nat)
    (hc : c ∈ chunksList sz l) : c.length ≤ sz := by
  induction l using chunksList.induct sz with
  | case1 => simp [chunksList_nil] at hc
  | case2 a rest h =>
    rw [chunksList_cons, if_pos h] at hc
    simp at hc
  | case3 a rest h ih =>
    rw [chunksList_cons, if_neg h, List.mem_cons] at hc
    rcases hc with hc | hc
    · subst hc
      simp [List.length_take]
    · exact ih hc

theorem chunksList_length (sz : Nat) (hsz : sz ≠ 0) (l : List Nat) :
    (chunksList sz l).length = (l.length + sz - 1) / sz := by
  induction l using chunksList.induct sz with
  | case1 =>
    rw [chunksList_nil]
    simp only [List.length_nil]
    exact (Nat.div_eq_of_lt (by omega)).symm
  | case2 a rest h => exact absurd h hsz
  | case3 a rest h ih =>
    rw [chunksList_cons, if_neg hsz]
    simp only [List.length_cons, ih, List.length_drop]
    exact ceil_succ sz (rest.length + 1) hsz (by omega)

theorem chunksList_flatten_pad (sz : Nat) (hsz : sz ≠ 0) (l : List Nat) :
    ((chunksList sz l).map (fun c => c ++ List.replicate (sz - c.length) 0)).flatten
      = l ++ List.replicate ((chunksList sz l).length * sz - l.length) 0 := by
  induction l using chunksList.induct sz with
  | case1 => simp [chunksList_nil]
  | case2 a rest h => exact absurd h hsz
  | case3 a rest h ih =>
    rw [chunksList_cons, if_neg hsz]
    rcases Nat.lt_or_ge ((a :: rest).length) sz with hlt | hge
    · have hdrop : (a :: rest).drop sz = [] := by
        apply List.drop_eq_nil_of_le
        omega
      have htake : (a :: rest).take sz = a :: rest := by
        apply List.take_of_length_le
        omega
      rw [hdrop, htake, chunksList_nil]
      simp only [List.map_cons, List.map_nil, List.flatten_cons,
        List.flatten_nil, List.append_nil, List.length_cons, List.length_nil]
      simp only [List.length_cons] at hlt
      have hc2 : sz - (rest.length + 1) = (0 + 1) * sz - (rest.length + 1) := by
        omega
      rw [hc2]
    · simp only [List.map_cons, List.flatten_cons, ih, List.length_cons]
      have htakelen : ((a :: rest).take sz).length = sz := by
        simp only [List.length_take]
        omega
      rw [htakelen, Nat.sub_self, List.replicate_zero, List.append_nil,
        ← List.append_assoc, List.take_append_drop]
      congr 2
      rw [List.length_drop, Nat.succ_mul]
      simp only [List.length_cons] at hge ⊢
      omega

theorem copyChunks_eq (sz : Nat) (cs : List (List Nat)) :
    ∀ (i : Nat) (shards : List (List Nat)), i + cs.length ≤ shards.length →
      copyChunks sz cs i shards =
        shards.take i ++ cs.map (fun c => c ++ List.replicate (sz - c.length) 0)
          ++ shards.drop (i + cs.length) := by
  induction cs with
  | nil =>
    intro i shards _h
    simp [copyChunks, List.take_append_drop]
  | cons c cs ih =>
    intro i shards h
    simp only [List.length_cons] at h
    have hi : i < shards.length := by omega
    simp only [copyChunks]
    rw [ih (i + 1) _ (by rw [List.length_set]; omega)]
    rw [List.set_eq_take_cons_drop _ hi]
    have hT : (shards.take i).length = i := by
      rw [List.length_take]
      omega
    have e1 : (shards.take i
          ++ (c ++ List.replicate (sz - c.length) 0) :: shards.drop (i + 1)).take (i + 1)
        = shards.take i ++ [c ++ List.replicate (sz - c.length) 0] := by
      rw [show i + 1 = (shards.take i).length + 1 by rw [hT]]
      rw [List.take_append]
      simp
    have e2 : (shards.take i
          ++ (c ++ List.replicate (sz - c.length) 0) :: shards.drop (i + 1)).drop
            (i + 1 + cs.length)
        = shards.drop (i + 1 + cs.length) := by
      rw [show i + 1 + cs.length = (shards.take i).length + (1 + cs.length) by
        rw [hT]; omega]
      rw [List.drop_append]
      rw [show 1 + cs.length = cs.length + 1 by omega]
      rw [List.drop_succ_cons, List.drop_drop]
      congr 1
      omega
    rw [e1, e2]
    rw [show i + 1 + cs.length = i + (cs.length + 1) by omega]
    simp [List.append_assoc]

end DataProcessor

theorem copyShares_eq (sz : Nat) (ss : List (List Nat)) :
    ∀ (i : Nat) (buf : List Nat), (∀ s ∈ ss, s.length = sz) →
      i * sz + ss.length * sz ≤ buf.length →
      copyShares sz ss i buf =
        buf.take (i * sz) ++ ss.flatten ++ buf.drop (i * sz + ss.length * sz) := by
  induction ss with
  | nil =>
    intro i buf _ _
    simp [copyShares, List.take_append_drop]
  | cons s ss ih =>
    intro i buf hlen h
    simp only [List.length_cons] at h
    have hs : s.length = sz := hlen s (by simp)
    have hle : i * sz + sz ≤ buf.length := by
      rw [Nat.succ_mul] at h
      omega
    simp only [copyShares]
    have hTlen : (buf.take (i * sz)).length = i * sz := by
      rw [List.length_take]
      omega
    have hAS : (buf.take (i * sz) ++ s).length = i * sz + sz := by
      simp [hTlen, hs]
    have hBlen : (buf.take (i * sz) ++ s ++ buf.drop (i * sz + sz)).length
        = buf.length := by
      simp only [List.length_append, List.length_drop, hTlen, hs]
      omega
    have hlen2 : (i + 1) * sz + ss.length * sz
        ≤ (buf.take (i * sz) ++ s ++ buf.drop (i * sz + sz)).length := by
      rw [hBlen, Nat.succ_mul] at *
      omega
    rw [ih (i + 1) _ (fun x hx => hlen x (List.mem_cons_of_mem s hx)) hlen2]
    have e1 : (buf.take (i * sz) ++ s ++ buf.drop (i * sz + sz)).take ((i + 1) * sz)
        = buf.take (i * sz) ++ s := by
      rw [show (i + 1) * sz = (buf.take (i * sz) ++ s).length by
        rw [hAS, Nat.succ_mul]]
      exact List.take_left _ _
    have e2 : (buf.take (i * sz) ++ s ++ buf.drop (i * sz + sz)).drop
          ((i + 1) * sz + ss.length * sz)
        = buf.drop (i * sz + (ss.length + 1) * sz) := by
      rw [show (i + 1) * sz + ss.length * sz
          = (buf.take (i * sz) ++ s).length + ss.length * sz by
        rw [hAS, Nat.succ_mul]]
      rw [List.drop_append, List.drop_drop]
      congr 1
      rw [Nat.succ_mul]
      omega
    rw [e1, e2, List.flatten_cons]
    simp [List.append_assoc]

theorem flatten_take_uniform :
    ∀ (k : Nat) (L : List (List Nat)) (sz : Nat),
      (∀ s ∈ L.take k, s.length = sz) →
      L.flatten.take (k * sz) = (L.take k).flatten := by
  intro k
  induction k with
  | zero =>
    intro L sz _
    simp
  | succ k ih =>
    intro L sz hL
    cases L with
    | nil => simp
    | cons x L2 =>
      have hx : x.length = sz := hL x (by simp)
      simp only [List.flatten_cons, List.take_succ_cons]
      rw [show (k + 1) * sz = x.length + k * sz by rw [hx, Nat.succ_mul]; omega]
      rw [List.take_append]
      rw [ih L2 sz (fun s hs => hL s (by simp [hs]))]

theorem slices_flatten (sz : Nat) :
    ∀ (k : Nat) (buf : List Nat),
      ((List.range k).map (fun i => (buf.drop (i * sz)).take sz)).flatten
        = buf.take (k * sz) := by
  intro k
  induction k with
  | zero =>
    intro buf
    simp
  | succ k ih =>
    intro buf
    rw [List.range_succ_eq_map]
    simp only [List.map_cons, List.map_map, List.flatten_cons, Nat.zero_mul,
      List.drop_zero]
    have hcomp : ((fun i => (buf.drop (i * sz)).take sz) ∘ Nat.succ)
        = fun i => ((buf.drop sz).drop (i * sz)).take sz := by
      funext i
      simp only [Function.comp_apply, List.drop_drop]
      congr 2
      rw [Nat.succ_mul]
      omega
    rw [hcomp, ih (buf.drop sz), ← List.take_add]
    congr 1
    rw [Nat.succ_mul]
    omega

theorem flatten_replicate_replicate (m sz : Nat) :
    (List.replicate m (List.replicate sz (0 : Nat))).flatten
      = List.replicate (m * sz) 0 := by
  induction m with
  | zero => simp
  | succ m ih =>
    rw [List.replicate_succ, List.flatten_cons, ih, ← List.replicate_add]
    congr 1
    rw [Nat.succ_mul]
    omega

/-! ## Characterisation of `split_into_shards` -/

theorem split_into_shards_eq (data : List Nat) (d t : Nat) (hd : d ≠ 0)
    (hdt : d ≤ t) :
    DataProcessor.split_into_shards data d t = Except.ok
      (((DataProcessor.chunksList ((data.length + d - 1) / d) data).take d).map
          (fun c => c ++ List.replicate ((data.length + d - 1) / d - c.length) 0)
        ++ List.replicate
            (t - ((DataProcessor.chunksList ((data.length + d - 1) / d) data).take
              d).length)
            (List.replicate ((data.length + d - 1) / d) 0)) := by
  rw [show DataProcessor.split_into_shards data d t
      = Except.ok (DataProcessor.copyChunks ((data.length + d - 1) / d)
        ((DataProcessor.chunksList ((data.length + d - 1) / d) data).take d) 0
        (List.replicate t (List.replicate ((data.length + d - 1) / d) 0)))
    from rfl]
  congr 1
  rw [DataProcessor.copyChunks_eq _ _ 0 _ ?hlen]
  · rw [List.take_zero, List.nil_append, Nat.zero_add, List.drop_replicate]
  case hlen =>
    rw [List.length_replicate, Nat.zero_add, List.length_take]
    omega

theorem split_length (data : List Nat) (d t : Nat) (hd : d ≠ 0) (hdt : d ≤ t)
    (S : List (List Nat))
    (hS : DataProcessor.split_into_shards data d t = Except.ok S) :
    S.length = t := by
  rw [split_into_shards_eq data d t hd hdt] at hS
  cases hS
  rw [List.length_append, List.length_replicate, List.length_map,
    List.length_take]
  omega

theorem split_mem_length (data : List Nat) (d t : Nat) (hd : d ≠ 0) (hdt : d ≤ t)
    (S : List (List Nat))
    (hS : DataProcessor.split_into_shards data d t = Except.ok S) :
    ∀ s ∈ S, s.length = (data.length + d - 1) / d := by
  rw [split_into_shards_eq data d t hd hdt] at hS
  cases hS
  intro s hs
  rw [List.mem_append] at hs
  rcases hs with hs | hs
  · obtain ⟨c, hc, rfl⟩ := List.mem_map.mp hs
    have hcl : c.length ≤ (data.length + d - 1) / d :=
      DataProcessor.chunksList_mem_length _ data c (List.take_subset d _ hc)
    rw [List.length_append, List.length_replicate]
    omega
  · rw [List.eq_of_mem_replicate hs, List.length_replicate]

theorem split_take_flatten (data : List Nat) (d t : Nat) (hd : d ≠ 0)
    (hdt : d ≤ t) (hdata : 1 ≤ data.length) (S : List (List Nat))
    (hS : DataProcessor.split_into_shards data d t = Except.ok S) :
    (S.take d).flatten
      = data
        ++ List.replicate (d * ((data.length + d - 1) / d) - data.length) 0 := by
  rw [split_into_shards_eq data d t hd hdt] at hS
  cases hS
  set sz := (data.length + d - 1) / d with hsz
  have hsz1 : 1 ≤ sz := ceil_pos data.length d hd hdata
  have hLle : data.length ≤ d * sz := le_mul_ceil data.length d hd
  have hk : (DataProcessor.chunksList sz data).length = (data.length + sz - 1) / sz :=
    DataProcessor.chunksList_length sz (by omega) data
  have hkd : (DataProcessor.chunksList sz data).length ≤ d := by
    rw [hk]
    exact ceil_le_of_le_mul data.length d sz (by omega) hLle
  have htake : (DataProcessor.chunksList sz data).take d
      = DataProcessor.chunksList sz data := List.take_of_length_le hkd
  rw [htake]
  set cs := DataProcessor.chunksList sz data with hcs
  have hmaplen : (cs.map (fun c => c ++ List.replicate (sz - c.length) 0)).length
      = cs.length := List.length_map _ _
  rw [List.take_append_eq_append_take]
  rw [List.take_of_length_le (by rw [hmaplen]; exact hkd)]
  rw [List.take_replicate, hmaplen]
  rw [List.flatten_append, DataProcessor.chunksList_flatten_pad sz (by omega) data]
  rw [← hcs]
  rw [flatten_replicate_replicate, List.append_assoc, ← List.replicate_add]
  have hmin : min (d - cs.length) (t - cs.length) = d - cs.length := by omega
  rw [hmin, Nat.sub_mul]
  have hlecssz : data.length ≤ cs.length * sz := by
    have h0 := le_mul_ceil data.length sz (by omega)
    rw [hk, Nat.mul_comm]
    exact h0
  have hcsd : cs.length * sz ≤ d * sz := Nat.mul_le_mul_right sz hkd
  congr 2
  omega

/-! ## Characterisation of `validate_and_split_shares` and `decode` -/

theorem validate_and_split_eq (buf : List Nat) (t : Nat) (hne : buf ≠ [])
    (hdvd : buf.length % t = 0) :
    DataProcessor.validate_and_split_shares buf t = Except.ok
      ((List.range t).map (fun i =>
        (buf.drop (i * (buf.length / t))).take (buf.length / t))) := by
  unfold DataProcessor.validate_and_split_shares
  simp [List.isEmpty_iff, hne, hdvd]

theorem validate_and_split_error (buf : List Nat) (t : Nat)
    (e : RSError) (he : DataProcessor.validate_and_split_shares buf t
      = Except.error e) : ∃ s, e = RSError.InvalidDataSize s := by
  unfold DataProcessor.validate_and_split_shares at he
  split at he
  · cases he
    exact ⟨_, rfl⟩
  · split at he
    · cases he
      exact ⟨_, rfl⟩
    · cases he

theorem shares_mem_length (buf : List Nat) (t sz : Nat) (hlen : buf.length = t * sz) :
    ∀ s ∈ (List.range t).map (fun i => (buf.drop (i * sz)).take sz),
      s.length = sz := by
  intro s hs
  obtain ⟨i, hi, rfl⟩ := List.mem_map.mp hs
  rw [List.mem_range] at hi
  have hmul : (i + 1) * sz ≤ t * sz := Nat.mul_le_mul_right sz (by omega)
  rw [Nat.succ_mul] at hmul
  rw [List.length_take, List.length_drop, hlen]
  omega

theorem decode_eq (cfg : EncoderConfig) (hv : cfg.Valid) (buf : List Nat)
    (hne : buf ≠ []) (hdvd : buf.length % cfg.total_shards = 0) :
    ReedSolomonCodec.decode cfg buf
      = DataProcessor.extract_original_data
          (buf.take (cfg.data_shards * (buf.length / cfg.total_shards))) := by
  obtain ⟨hd1, hp1, hts, hmax⟩ := hv
  have ht0 : cfg.total_shards ≠ 0 := by omega
  have hlen : buf.length = cfg.total_shards * (buf.length / cfg.total_shards) := by
    rw [Nat.mul_comm]
    exact (Nat.div_mul_cancel (Nat.dvd_of_mod_eq_zero hdvd)).symm
  have hrange : List.range cfg.total_shards
      = 0 :: List.map Nat.succ (List.range (cfg.total_shards - 1)) := by
    rw [show cfg.total_shards = cfg.total_shards - 1 + 1 by omega,
      List.range_succ_eq_map]
    simp
  unfold ReedSolomonCodec.decode
  rw [validate_and_split_eq buf cfg.total_shards hne hdvd]
  dsimp only
  set sz := buf.length / cfg.total_shards with hsz
  set shares := (List.range cfg.total_shards).map
    (fun i => (buf.drop (i * sz)).take sz) with hshares
  have hmem : ∀ s ∈ shares, s.length = sz := by
    rw [hshares]
    exact shares_mem_length buf _ _ hlen
  have hhead : (shares.headD []).length = sz := by
    rw [hshares, hrange, List.map_cons, List.headD_cons]
    apply hmem
    rw [hshares, hrange, List.map_cons]
    exact List.mem_cons_self _ _
  rw [hhead]
  have htklen : (shares.take cfg.data_shards).length = cfg.data_shards := by
    rw [List.length_take, hshares, List.length_map, List.length_range]
    omega
  rw [copyShares_eq sz (shares.take cfg.data_shards) 0 _
    (fun s hs => hmem s (List.take_subset _ shares hs)) ?hbound]
  case hbound =>
    rw [List.length_replicate, htklen, Nat.zero_mul, Nat.zero_add, Nat.mul_comm]
  rw [htklen, Nat.zero_mul, List.take_zero, List.nil_append, Nat.zero_add,
    List.drop_replicate]
  rw [show sz * cfg.data_shards - cfg.data_shards * sz = 0 by
    rw [Nat.mul_comm]; omega]
  rw [List.replicate_zero, List.append_nil]
  rw [hshares, ← List.map_take, List.take_range]
  rw [show min cfg.data_shards cfg.total_shards = cfg.data_shards by omega]
  rw [slices_flatten sz cfg.data_shards buf]

/-! ## Characterisation of `prepare_data` and `encode` -/

theorem prepare_data_eq (p : List Nat) (h1 : 1 ≤ p.length)
    (h2 : p.length ≤ 2 ^ 32) :
    DataProcessor.prepare_data p = Except.ok (writeU32BE p.length ++ p) := by
  unfold DataProcessor.prepare_data DataProcessor.validate_data_size
  have hc : DATA_SIZE_LIMITS.min ≤ p.length ∧ p.length ≤ DATA_SIZE_LIMITS.max :=
    ⟨h1, h2⟩
  rw [if_neg (not_not_intro hc)]

theorem prepare_data_error (p : List Nat)
    (h : ¬ (1 ≤ p.length ∧ p.length ≤ 2 ^ 32)) :
    DataProcessor.prepare_data p = Except.error (RSError.InvalidDataSize
      "Data size must be between 1 and 4294967296") := by
  unfold DataProcessor.prepare_data DataProcessor.validate_data_size
  have h2 : ¬ (DATA_SIZE_LIMITS.min ≤ p.length
      ∧ p.length ≤ DATA_SIZE_LIMITS.max) := h
  rw [if_pos h2]

theorem encode_ok (cfg : EncoderConfig) (hv : cfg.Valid)
    (prim : List (List Nat) → Option (List (List Nat)))
    (hp : PrimSpec cfg.data_shards prim)
    (p : List Nat) (h1 : 1 ≤ p.length) (h2 : p.length ≤ 2 ^ 32) :
    ∃ buf, ReedSolomonCodec.encode cfg prim p = Except.ok buf ∧
      buf.length = cfg.total_shards
        * ((p.length + 4 + cfg.data_shards - 1) / cfg.data_shards) ∧
      buf.take (cfg.data_shards
          * ((p.length + 4 + cfg.data_shards - 1) / cfg.data_shards))
        = (writeU32BE p.length ++ p)
          ++ List.replicate (cfg.data_shards
              * ((p.length + 4 + cfg.data_shards - 1) / cfg.data_shards)
              - (p.length + 4)) 0 := by
  obtain ⟨hd1, hp1, hts, hmax⟩ := hv
  have hd0 : cfg.data_shards ≠ 0 := by omega
  have hdt : cfg.data_shards ≤ cfg.total_shards := by omega
  have hfl : (writeU32BE p.length ++ p).length = p.length + 4 := by
    rw [List.length_append, writeU32BE_length]
    omega
  obtain ⟨S, hS⟩ : ∃ S, DataProcessor.split_into_shards (writeU32BE p.length ++ p)
      cfg.data_shards cfg.total_shards = Except.ok S := ⟨_, rfl⟩
  have hSlen : S.length = cfg.total_shards := split_length _ _ _ hd0 hdt S hS
  have hSmem := split_mem_length _ _ _ hd0 hdt S hS
  rw [hfl] at hSmem
  have htake := split_take_flatten _ _ _ hd0 hdt (by rw [hfl]; omega) S hS
  rw [hfl] at htake
  obtain ⟨filled, hprim, _hflen, hfmap, hftake⟩ := hp S
  refine ⟨filled.flatten, ?henc, ?hlen, ?htk⟩
  case henc =>
    unfold ReedSolomonCodec.encode
    rw [prepare_data_eq p h1 h2]
    dsimp only
    rw [hS]
    dsimp only
    rw [hprim]
  case hlen =>
    rw [List.length_flatten]
    have hrep : filled.map List.length = List.replicate cfg.total_shards
        ((p.length + 4 + cfg.data_shards - 1) / cfg.data_shards) := by
      rw [hfmap]
      refine List.eq_replicate_iff.mpr ⟨?_, ?_⟩
      · rw [List.length_map, hSlen]
      · intro b hb
        obtain ⟨s, hs, rfl⟩ := List.mem_map.mp hb
        exact hSmem s hs
    rw [hrep, List.sum_replicate, smul_eq_mul]
  case htk =>
    have hflmem : ∀ s ∈ filled.take cfg.data_shards,
        s.length = (p.length + 4 + cfg.data_shards - 1) / cfg.data_shards := by
      intro s hs
      rw [hftake] at hs
      exact hSmem s (List.take_subset _ _ hs)
    rw [flatten_take_uniform cfg.data_shards filled _ hflmem]
    rw [hftake, htake]

/-! ## Further decode helpers -/

theorem decode_nil (cfg : EncoderConfig) :
    ReedSolomonCodec.decode cfg []
      = Except.error (RSError.InvalidDataSize "Empty data") := rfl

theorem decode_not_div (cfg : EncoderConfig) (buf : List Nat) (hne : buf ≠ [])
    (h : buf.length % cfg.total_shards ≠ 0) :
    ReedSolomonCodec.decode cfg buf = Except.error (RSError.InvalidDataSize
      "Data length not divisible by total shards") := by
  unfold ReedSolomonCodec.decode DataProcessor.validate_and_split_shares
  rw [if_neg (by simp [List.isEmpty_iff, hne]), if_pos h]

theorem extract_cases (dec : List Nat) :
    (∃ out, DataProcessor.extract_original_data dec = Except.ok out)
    ∨ (∃ s, DataProcessor.extract_original_data dec
        = Except.error (RSError.DecodingError s)) := by
  unfold DataProcessor.extract_original_data
  by_cases h4 : dec.length < 4
  · right
    refine ⟨"Data too short", ?_⟩
    rw [if_pos h4]
  · rw [if_neg h4]
    by_cases hsz : readU32BE (dec.take 4) > dec.length - 4
    · right
      refine ⟨"Invalid size prefix", ?_⟩
      dsimp only
      rw [if_pos hsz]
    · left
      refine ⟨(dec.drop 4).take (readU32BE (dec.take 4)), ?_⟩
      dsimp only
      rw [if_neg hsz]

/-! ## Characterisation of `new` -/

theorem is_valid_iff (c : Nat) :
    is_valid_shard_count c = true ↔ 1 ≤ c ∧ c ≤ 256 := by
  unfold is_valid_shard_count SHARD_LIMITS
  simp [Bool.and_eq_true, decide_eq_true_eq]

theorem new_eq_err_d (d p : Nat) (h : ¬ (1 ≤ d ∧ d ≤ 256)) :
    ReedSolomonCodec.new d p = Except.error (RSError.InvalidShardCount
      "Data shards must be between 1 and 256") := by
  unfold ReedSolomonCodec.new EncoderConfig.new
  rw [if_pos (fun hh => h ((is_valid_iff d).mp hh))]

theorem new_eq_err_p (d p : Nat) (hA : 1 ≤ d ∧ d ≤ 256)
    (h : ¬ (1 ≤ p ∧ p ≤ 256)) :
    ReedSolomonCodec.new d p = Except.error (RSError.InvalidShardCount
      "Parity shards must be between 1 and 256") := by
  unfold ReedSolomonCodec.new EncoderConfig.new
  rw [if_neg (not_not_intro ((is_valid_iff d).mpr hA)),
    if_pos (fun hh => h ((is_valid_iff p).mp hh))]

theorem new_eq_err_t (d p : Nat) (hA : 1 ≤ d ∧ d ≤ 256)
    (hB : 1 ≤ p ∧ p ≤ 256) (h : 256 < d + p) :
    ReedSolomonCodec.new d p = Except.error (RSError.InvalidShardCount
      "Total shards exceeds maximum allowed") := by
  unfold ReedSolomonCodec.new EncoderConfig.new
  rw [if_neg (not_not_intro ((is_valid_iff d).mpr hA)),
    if_neg (not_not_intro ((is_valid_iff p).mpr hB))]
  dsimp only
  rw [if_pos (show d + p > SHARD_LIMITS.max from h)]

theorem new_eq_ok (d p : Nat) (hA : 1 ≤ d ∧ d ≤ 256) (hB : 1 ≤ p ∧ p ≤ 256)
    (h : d + p ≤ 256) :
    ReedSolomonCodec.new d p = Except.ok ⟨d, p, d + p⟩ := by
  unfold ReedSolomonCodec.new EncoderConfig.new primitiveNew
  rw [if_neg (not_not_intro ((is_valid_iff d).mpr hA)),
    if_neg (not_not_intro ((is_valid_iff p).mpr hB))]
  dsimp only
  rw [if_neg (show ¬ d + p > SHARD_LIMITS.max from by
    change ¬ d + p > 256; omega)]
  dsimp only
  rw [if_pos ⟨hA.1, hB.1, h⟩]

/-! ## Claims -/

/-- Claim C3: codec construction fails with `InvalidShardCount` exactly when
`data_shards` lies outside `[1, 256]`, or `parity_shards` lies outside
`[1, 256]`, or `data_shards + parity_shards > 256`; in particular `new(0,k)`
and `new(k,0)` fail for every `k`, every `(d,p)` with `d + p > 256` fails, and
`new(1,1)` and `new(255,1)` succeed. -/
theorem C3_config_bounds :
    (∀ d p : Nat, isInvalidShardCountErr (ReedSolomonCodec.new d p) = true
      ↔ (d < 1 ∨ 256 < d ∨ p < 1 ∨ 256 < p ∨ 256 < d + p))
    ∧ (∀ k : Nat, isInvalidShardCountErr (ReedSolomonCodec.new 0 k) = true)
    ∧ (∀ k : Nat, isInvalidShardCountErr (ReedSolomonCodec.new k 0) = true)
    ∧ (∀ d p : Nat, 256 < d + p →
        isInvalidShardCountErr (ReedSolomonCodec.new d p) = true)
    ∧ ReedSolomonCodec.new 1 1 = Except.ok ⟨1, 1, 2⟩
    ∧ ReedSolomonCodec.new 255 1 = Except.ok ⟨255, 1, 256⟩ := by
  have main : ∀ d p : Nat,
      isInvalidShardCountErr (ReedSolomonCodec.new d p) = true
        ↔ (d < 1 ∨ 256 < d ∨ p < 1 ∨ 256 < p ∨ 256 < d + p) := by
    intro d p
    by_cases hA : 1 ≤ d ∧ d ≤ 256
    · by_cases hB : 1 ≤ p ∧ p ≤ 256
      · by_cases hC : d + p ≤ 256
        · rw [new_eq_ok d p hA hB hC]
          refine ⟨fun h => absurd h Bool.false_ne_true, fun h => ?_⟩
          omega
        · rw [new_eq_err_t d p hA hB (by omega)]
          refine ⟨fun _ => by omega, fun _ => rfl⟩
      · rw [new_eq_err_p d p hA hB]
        refine ⟨fun _ => by omega, fun _ => rfl⟩
    · rw [new_eq_err_d d p hA]
      refine ⟨fun _ => by omega, fun _ => rfl⟩
  refine ⟨main, ?_, ?_, ?_, by rfl, by rfl⟩
  · intro k
    exact (main 0 k).mpr (by omega)
  · intro k
    exact (main k 0).mpr (by omega)
  · intro d p h
    exact (main d p).mpr (by omega)

theorem C3_config_bounds_witness :
    isInvalidShardCountErr (ReedSolomonCodec.new 0 7) = true
    ∧ isInvalidShardCountErr (ReedSolomonCodec.new 7 0) = true
    ∧ isInvalidShardCountErr (ReedSolomonCodec.new 200 57) = true
    ∧ (isInvalidShardCountErr (ReedSolomonCodec.new 10 4) = true
        ↔ (10 < 1 ∨ 256 < 10 ∨ 4 < 1 ∨ 256 < 4 ∨ 256 < 10 + 4)) :=
  ⟨C3_config_bounds.2.1 7, C3_config_bounds.2.2.1 7,
    C3_config_bounds.2.2.2.1 200 57 (by decide), C3_config_bounds.1 10 4⟩

/-- Claim C8: the conversion of `ReedSolomonError` to `io::Error` maps
`InvalidShardCount` and `InvalidDataSize` to `ErrorKind::InvalidInput` and
maps `CodecError`, `EncodingError` and `DecodingError` to `ErrorKind::Other`. -/
theorem C8_io_error_mapping :
    (∀ s, ioKindOf (RSError.InvalidShardCount s) = IoErrorKind.InvalidInput)
    ∧ (∀ s, ioKindOf (RSError.InvalidDataSize s) = IoErrorKind.InvalidInput)
    ∧ (∀ s, ioKindOf (RSError.CodecError s) = IoErrorKind.Other)
    ∧ (∀ s, ioKindOf (RSError.EncodingError s) = IoErrorKind.Other)
    ∧ (∀ s, ioKindOf (RSError.DecodingError s) = IoErrorKind.Other) :=
  ⟨fun _ => rfl, fun _ => rfl, fun _ => rfl, fun _ => rfl, fun _ => rfl⟩

/-- Claim C4: for a valid codec, `encode` fails with `InvalidDataSize` if and
only if the payload length lies outside `[1, 2^32]`; in particular the empty
payload and any payload of length `2^32 + 1` are rejected. -/
theorem C4_encode_size_check (cfg : EncoderConfig) (hv : cfg.Valid)
    (prim : List (List Nat) → Option (List (List Nat))) (p : List Nat) :
    isInvalidDataSizeErr (ReedSolomonCodec.encode cfg prim p) = true
      ↔ ¬ (1 ≤ p.length ∧ p.length ≤ 2 ^ 32) := by
  by_cases hc : 1 ≤ p.length ∧ p.length ≤ 2 ^ 32
  · unfold ReedSolomonCodec.encode
    rw [prepare_data_eq p hc.1 hc.2]
    dsimp only [DataProcessor.split_into_shards]
    cases hpr : prim (DataProcessor.copyChunks _ _ 0 _) with
    | none =>
      refine ⟨fun h => absurd h Bool.false_ne_true, fun h => absurd hc h⟩
    | some filled =>
      refine ⟨fun h => absurd h Bool.false_ne_true, fun h => absurd hc h⟩
  · unfold ReedSolomonCodec.encode
    rw [prepare_data_error p hc]
    exact ⟨fun _ => hc, fun _ => rfl⟩

theorem C4_encode_size_check_witness :
    EncoderConfig.Valid ⟨1, 1, 2⟩
    ∧ (isInvalidDataSizeErr (ReedSolomonCodec.encode ⟨1, 1, 2⟩ idPrim []) = true
        ↔ ¬ (1 ≤ ([] : List Nat).length ∧ ([] : List Nat).length ≤ 2 ^ 32)) :=
  ⟨by decide, C4_encode_size_check ⟨1, 1, 2⟩ (by decide) idPrim []⟩

/-- Claim C6: `extract_original_data` on a buffer of at least 4 bytes whose
big-endian 4-byte prefix `original_size` satisfies
`original_size ≤ len - 4` returns exactly `decoded[4 .. 4 + original_size]`,
discarding all trailing bytes; on fewer than 4 bytes it fails with
`DecodingError`. -/
theorem C6_extract_slice (decoded : List Nat) :
    (decoded.length < 4 →
      DataProcessor.extract_original_data decoded
        = Except.error (RSError.DecodingError "Data too short"))
    ∧ (4 ≤ decoded.length →
      readU32BE (decoded.take 4) ≤ decoded.length - 4 →
      DataProcessor.extract_original_data decoded
        = Except.ok ((decoded.drop 4).take (readU32BE (decoded.take 4)))) := by
  constructor
  · intro h
    unfold DataProcessor.extract_original_data
    rw [if_pos h]
  · intro h4 hsize
    unfold DataProcessor.extract_original_data
    rw [if_neg (by omega)]
    dsimp only
    rw [if_neg (by omega)]

theorem C6_extract_slice_witness :
    (DataProcessor.extract_original_data [1, 2]
        = Except.error (RSError.DecodingError "Data too short"))
    ∧ (DataProcessor.extract_original_data [0, 0, 0, 1, 9, 9]
        = Except.ok [9]) := by
  refine ⟨(C6_extract_slice [1, 2]).1 (by decide), ?_⟩
  have h := (C6_extract_slice [0, 0, 0, 1, 9, 9]).2 (by decide) (by decide)
  exact h.trans (by rfl)

/-- Claim C5: for every valid codec, decoding the empty buffer fails with
`InvalidDataSize`; decoding a buffer whose length is not a multiple of
`total_shards` fails with `InvalidDataSize`; and decoding a buffer of valid
shard layout whose 4-byte big-endian size prefix exceeds the remaining
reassembled bytes fails with `DecodingError`. -/
theorem C5_decode_malformed (cfg : EncoderConfig) (hv : cfg.Valid) :
    (ReedSolomonCodec.decode cfg []
        = Except.error (RSError.InvalidDataSize "Empty data"))
    ∧ (∀ buf : List Nat, buf.length % cfg.total_shards ≠ 0 →
        isInvalidDataSizeErr (ReedSolomonCodec.decode cfg buf) = true)
    ∧ (∀ buf : List Nat, buf ≠ [] → buf.length % cfg.total_shards = 0 →
        4 ≤ cfg.data_shards * (buf.length / cfg.total_shards) →
        cfg.data_shards * (buf.length / cfg.total_shards) - 4
          < readU32BE (buf.take 4) →
        isDecodingErr (ReedSolomonCodec.decode cfg buf) = true) := by
  obtain ⟨hd1, hp1, hts, hmax⟩ := id hv
  refine ⟨decode_nil cfg, ?_, ?_⟩
  · intro buf h
    have hne : buf ≠ [] := by
      intro h0
      rw [h0] at h
      simp at h
    rw [decode_not_div cfg buf hne h]
    rfl
  · intro buf hne hdvd h4 hgt
    have hlen : buf.length
        = cfg.total_shards * (buf.length / cfg.total_shards) := by
      rw [Nat.mul_comm]
      exact (Nat.div_mul_cancel (Nat.dvd_of_mod_eq_zero hdvd)).symm
    rw [decode_eq cfg hv buf hne hdvd]
    have hdsz : cfg.data_shards * (buf.length / cfg.total_shards)
        ≤ buf.length := by
      conv_rhs => rw [hlen]
      exact Nat.mul_le_mul_right (buf.length / cfg.total_shards)
        (show cfg.data_shards ≤ cfg.total_shards by omega)
    have htl : (buf.take (cfg.data_shards
        * (buf.length / cfg.total_shards))).length
        = cfg.data_shards * (buf.length / cfg.total_shards) := by
      rw [List.length_take]
      omega
    unfold DataProcessor.extract_original_data
    rw [if_neg (by rw [htl]; omega)]
    dsimp only
    have htk4 : (buf.take (cfg.data_shards
        * (buf.length / cfg.total_shards))).take 4 = buf.take 4 := by
      rw [List.take_take]
      congr 1
      omega
    rw [htk4, if_pos (show readU32BE (buf.take 4)
        > (buf.take (cfg.data_shards * (buf.length / cfg.total_shards))).length - 4
      from by rw [htl]; omega)]
    rfl

theorem C5_decode_malformed_witness :
    EncoderConfig.Valid ⟨1, 1, 2⟩
    ∧ ReedSolomonCodec.decode ⟨1, 1, 2⟩ []
        = Except.error (RSError.InvalidDataSize "Empty data")
    ∧ isInvalidDataSizeErr (ReedSolomonCodec.decode ⟨1, 1, 2⟩ [5]) = true
    ∧ isDecodingErr
        (ReedSolomonCodec.decode ⟨1, 1, 2⟩ [0, 0, 9, 9, 0, 0, 0, 0]) = true :=
  ⟨by decide, (C5_decode_malformed ⟨1, 1, 2⟩ (by decide)).1,
    (C5_decode_malformed ⟨1, 1, 2⟩ (by decide)).2.1 [5] (by decide),
    (C5_decode_malformed ⟨1, 1, 2⟩ (by decide)).2.2 [0, 0, 9, 9, 0, 0, 0, 0]
      (by decide) (by decide) (by decide) (by decide)⟩

/-- Claim C7: decode never reads parity shares — for a valid codec and two
buffers of the same length that is a positive multiple of `total_shards`,
agreeing on their first `data_shards * (len / total_shards)` bytes, decoding
gives the same result regardless of the parity-position bytes. -/
theorem C7_decode_ignores_parity (cfg : EncoderConfig) (hv : cfg.Valid)
    (b1 b2 : List Nat) (hlen : b1.length = b2.length) (hpos : 0 < b1.length)
    (hdvd : b1.length % cfg.total_shards = 0)
    (hagree : b1.take (cfg.data_shards * (b1.length / cfg.total_shards))
      = b2.take (cfg.data_shards * (b1.length / cfg.total_shards))) :
    ReedSolomonCodec.decode cfg b1 = ReedSolomonCodec.decode cfg b2 := by
  have hne1 : b1 ≠ [] := by
    intro h
    rw [h] at hpos
    simp at hpos
  have hne2 : b2 ≠ [] := by
    intro h
    rw [h] at hlen
    simp only [List.length_nil] at hlen
    omega
  rw [decode_eq cfg hv b1 hne1 hdvd,
    decode_eq cfg hv b2 hne2 (by rw [← hlen]; exact hdvd)]
  rw [← hlen, hagree]

theorem C7_decode_ignores_parity_witness :
    EncoderConfig.Valid ⟨1, 1, 2⟩
    ∧ ([0, 0, 0, 0, 7, 7] : List Nat).length = ([0, 0, 0, 0, 9, 9] : List Nat).length
    ∧ 0 < ([0, 0, 0, 0, 7, 7] : List Nat).length
    ∧ ([0, 0, 0, 0, 7, 7] : List Nat).length % 2 = 0
    ∧ ReedSolomonCodec.decode ⟨1, 1, 2⟩ [0, 0, 0, 0, 7, 7]
        = ReedSolomonCodec.decode ⟨1, 1, 2⟩ [0, 0, 0, 0, 9, 9] :=
  ⟨by decide, by decide, by decide, by decide,
    C7_decode_ignores_parity ⟨1, 1, 2⟩ (by decide) [0, 0, 0, 0, 7, 7]
      [0, 0, 0, 0, 9, 9] (by decide) (by decide) (by decide) (by decide)⟩

/-- Claim C10: decode is total over arbitrary byte input for a valid codec —
once validation passes, the buffer length is a positive multiple of
`total_shards`, the share size is at least 1, the share list has exactly
`total_shards` entries all of length `share_size` (so `shares[0]` exists and
each `copy_from_slice` is length-matched), and decode always returns `Ok` or
an `InvalidDataSize`/`DecodingError` error. -/
theorem C10_decode_total (cfg : EncoderConfig) (hv : cfg.Valid)
    (buf : List Nat) :
    (∀ shares, DataProcessor.validate_and_split_shares buf cfg.total_shards
        = Except.ok shares →
      0 < buf.length ∧ buf.length % cfg.total_shards = 0
        ∧ 1 ≤ buf.length / cfg.total_shards
        ∧ shares.length = cfg.total_shards
        ∧ (∀ s ∈ shares, s.length = buf.length / cfg.total_shards)
        ∧ (shares.headD []).length = buf.length / cfg.total_shards
        ∧ cfg.data_shards ≤ shares.length)
    ∧ ((∃ out, ReedSolomonCodec.decode cfg buf = Except.ok out)
      ∨ (∃ s, ReedSolomonCodec.decode cfg buf
          = Except.error (RSError.InvalidDataSize s))
      ∨ (∃ s, ReedSolomonCodec.decode cfg buf
          = Except.error (RSError.DecodingError s))) := by
  constructor
  · intro shares hok
    unfold DataProcessor.validate_and_split_shares at hok
    by_cases hE : buf.isEmpty = true
    · rw [if_pos hE] at hok
      exact absurd hok (by simp)
    · rw [if_neg hE] at hok
      by_cases hM : buf.length % cfg.total_shards ≠ 0
      · rw [if_pos hM] at hok
        exact absurd hok (by simp)
      · rw [if_neg hM] at hok
        dsimp only at hok
        cases hok
        have hne : buf ≠ [] := fun h => hE (by rw [h]; rfl)
        have hpos : 0 < buf.length := List.length_pos.mpr hne
        have hdvd : buf.length % cfg.total_shards = 0 := by omega
        have ht0 : 0 < cfg.total_shards := by
          obtain ⟨hd1, hp1, hts, hmax⟩ := hv
          omega
        have htle : cfg.total_shards ≤ buf.length :=
          Nat.le_of_dvd hpos (Nat.dvd_of_mod_eq_zero hdvd)
        have hlen2 : buf.length
            = cfg.total_shards * (buf.length / cfg.total_shards) := by
          rw [Nat.mul_comm]
          exact (Nat.div_mul_cancel (Nat.dvd_of_mod_eq_zero hdvd)).symm
        have hrange : List.range cfg.total_shards
            = 0 :: List.map Nat.succ (List.range (cfg.total_shards - 1)) := by
          rw [show cfg.total_shards = cfg.total_shards - 1 + 1 by omega,
            List.range_succ_eq_map]
          simp
        refine ⟨hpos, hdvd, Nat.div_pos htle ht0, ?_, ?_, ?_, ?_⟩
        · rw [List.length_map, List.length_range]
        · exact shares_mem_length buf _ _ hlen2
        · rw [hrange, List.map_cons, List.headD_cons]
          exact shares_mem_length buf _ _ hlen2 _
            (by rw [hrange, List.map_cons]; exact List.mem_cons_self _ _)
        · rw [List.length_map, List.length_range]
          obtain ⟨hd1, hp1, hts, hmax⟩ := hv
          omega
  · by_cases hne : buf = []
    · subst hne
      exact Or.inr (Or.inl ⟨"Empty data", decode_nil cfg⟩)
    · by_cases hdvd : buf.length % cfg.total_shards = 0
      · rw [decode_eq cfg hv buf hne hdvd]
        rcases extract_cases (buf.take (cfg.data_shards
            * (buf.length / cfg.total_shards))) with ⟨out, ho⟩ | ⟨s, hs⟩
        · exact Or.inl ⟨out, ho⟩
        · exact Or.inr (Or.inr ⟨s, hs⟩)
      · exact Or.inr (Or.inl ⟨_, decode_not_div cfg buf hne hdvd⟩)

theorem C10_decode_total_witness :
    EncoderConfig.Valid ⟨1, 1, 2⟩
    ∧ (0 < ([0, 0, 0, 4] : List Nat).length
        ∧ ([0, 0, 0, 4] : List Nat).length % 2 = 0
        ∧ 1 ≤ ([0, 0, 0, 4] : List Nat).length / 2
        ∧ ([[0, 0], [0, 4]] : List (List Nat)).length = 2
        ∧ (∀ s ∈ ([[0, 0], [0, 4]] : List (List Nat)),
            s.length = ([0, 0, 0, 4] : List Nat).length / 2)
        ∧ (([[0, 0], [0, 4]] : List (List Nat)).headD []).length
            = ([0, 0, 0, 4] : List Nat).length / 2
        ∧ 1 ≤ ([[0, 0], [0, 4]] : List (List Nat)).length)
    ∧ ((∃ out, ReedSolomonCodec.decode ⟨1, 1, 2⟩ [0, 0, 0, 4] = Except.ok out)
      ∨ (∃ s, ReedSolomonCodec.decode ⟨1, 1, 2⟩ [0, 0, 0, 4]
          = Except.error (RSError.InvalidDataSize s))
      ∨ (∃ s, ReedSolomonCodec.decode ⟨1, 1, 2⟩ [0, 0, 0, 4]
          = Except.error (RSError.DecodingError s))) :=
  ⟨by decide,
    (C10_decode_total ⟨1, 1, 2⟩ (by decide) [0, 0, 0, 4]).1 [[0, 0], [0, 4]] rfl,
    (C10_decode_total ⟨1, 1, 2⟩ (by decide) [0, 0, 0, 4]).2⟩

/-! ## Concrete encode evaluation helpers -/

theorem chunksList_exact (sz : Nat) (hsz : sz ≠ 0) (l : List Nat)
    (hlen : l.length = sz) : DataProcessor.chunksList sz l = [l] := by
  cases l with
  | nil =>
    rw [List.length_nil] at hlen
    exact absurd hlen.symm hsz
  | cons a rest =>
    rw [DataProcessor.chunksList_cons, if_neg hsz,
      List.take_of_length_le (by omega), List.drop_eq_nil_of_le (by omega),
      DataProcessor.chunksList_nil]

theorem encode_example :
    ReedSolomonCodec.encode ⟨1, 1, 2⟩ idPrim [7]
      = Except.ok [0, 0, 0, 1, 7, 0, 0, 0, 0, 0] := by
  unfold ReedSolomonCodec.encode
  rw [prepare_data_eq [7] (by decide) (by decide)]
  dsimp only
  have hw : writeU32BE ([7] : List Nat).length ++ [7] = [0, 0, 0, 1, 7] := rfl
  rw [hw]
  have hsplit : DataProcessor.split_into_shards [0, 0, 0, 1, 7] 1 2
      = Except.ok [[0, 0, 0, 1, 7], [0, 0, 0, 0, 0]] := by
    rw [show DataProcessor.split_into_shards [0, 0, 0, 1, 7] 1 2
        = Except.ok (DataProcessor.copyChunks 5
            ((DataProcessor.chunksList 5 [0, 0, 0, 1, 7]).take 1) 0
            (List.replicate 2 (List.replicate 5 0)))
      from rfl]
    rw [chunksList_exact 5 (by decide) [0, 0, 0, 1, 7] (by decide)]
    rfl
  rw [hsplit]
  rfl

/-- Claim C2: for every valid codec with `PrimSpec`-conforming primitive, a
buffer returned by `encode` has length exactly
`total_shards * ceil((len(p) + 4) / data_shards)`. -/
theorem C2_encoded_length (cfg : EncoderConfig) (hv : cfg.Valid)
    (prim : List (List Nat) → Option (List (List Nat)))
    (hp : PrimSpec cfg.data_shards prim) (p : List Nat) (buf : List Nat)
    (henc : ReedSolomonCodec.encode cfg prim p = Except.ok buf) :
    buf.length = cfg.total_shards
      * ((p.length + 4 + cfg.data_shards - 1) / cfg.data_shards) := by
  by_cases hlen : 1 ≤ p.length ∧ p.length ≤ 2 ^ 32
  · obtain ⟨buf2, he2, hl2, _⟩ := encode_ok cfg hv prim hp p hlen.1 hlen.2
    rw [henc] at he2
    cases he2
    exact hl2
  · unfold ReedSolomonCodec.encode at henc
    rw [prepare_data_error p hlen] at henc
    simp at henc

theorem C2_encoded_length_witness :
    EncoderConfig.Valid ⟨1, 1, 2⟩ ∧ PrimSpec 1 idPrim
    ∧ ([0, 0, 0, 1, 7, 0, 0, 0, 0, 0] : List Nat).length
        = 2 * ((([7] : List Nat).length + 4 + 1 - 1) / 1) :=
  ⟨by decide, idPrim_spec 1,
    C2_encoded_length ⟨1, 1, 2⟩ (by decide) idPrim (idPrim_spec 1) [7] _
      encode_example⟩

/-- Claim C9 (implicit): the encoding is systematic at the byte level — for a
valid codec, a `PrimSpec`-conforming primitive and an accepted payload, the
first `len(p) + 4` bytes of the encoded buffer are exactly the 4-byte
big-endian length prefix of `p` followed by `p` verbatim. -/
theorem C9_systematic (cfg : EncoderConfig) (hv : cfg.Valid)
    (prim : List (List Nat) → Option (List (List Nat)))
    (hp : PrimSpec cfg.data_shards prim) (p : List Nat)
    (h1 : 1 ≤ p.length) (h2 : p.length ≤ 2 ^ 32) (buf : List Nat)
    (henc : ReedSolomonCodec.encode cfg prim p = Except.ok buf) :
    buf.take (p.length + 4) = writeU32BE p.length ++ p := by
  obtain ⟨buf2, he2, _hl2, ht2⟩ := encode_ok cfg hv prim hp p h1 h2
  rw [henc] at he2
  cases he2
  have hd0 : cfg.data_shards ≠ 0 := by
    obtain ⟨hd1, hp1, hts, hmax⟩ := hv
    omega
  have hLle : p.length + 4 ≤ cfg.data_shards
      * ((p.length + 4 + cfg.data_shards - 1) / cfg.data_shards) :=
    le_mul_ceil (p.length + 4) cfg.data_shards hd0
  have hstep : buf.take (p.length + 4)
      = (buf.take (cfg.data_shards
          * ((p.length + 4 + cfg.data_shards - 1) / cfg.data_shards))).take
        (p.length + 4) := by
    rw [List.take_take]
    congr 1
    omega
  rw [hstep, ht2]
  rw [show p.length + 4 = (writeU32BE p.length ++ p).length by
    rw [List.length_append, writeU32BE_length]; omega]
  exact List.take_left _ _

theorem C9_systematic_witness :
    EncoderConfig.Valid ⟨1, 1, 2⟩ ∧ PrimSpec 1 idPrim
    ∧ 1 ≤ ([7] : List Nat).length ∧ ([7] : List Nat).length ≤ 2 ^ 32
    ∧ ([0, 0, 0, 1, 7, 0, 0, 0, 0, 0] : List Nat).take
          (([7] : List Nat).length + 4)
        = writeU32BE ([7] : List Nat).length ++ [7] :=
  ⟨by decide, idPrim_spec 1, by decide, by decide,
    C9_systematic ⟨1, 1, 2⟩ (by decide) idPrim (idPrim_spec 1) [7]
      (by decide) (by decide) _ encode_example⟩

/-- Claim C1 (amended): for every valid codec, every `PrimSpec`-conforming
primitive and every payload `p` with `1 ≤ len(p) ≤ 2^32 - 1`,
`decode(encode(p))` succeeds and returns exactly `p`.  (At `len(p) = 2^32`,
the accepted maximum, the 4-byte length prefix truncates to 0 and the
round-trip fails; see the counterexample.) -/
theorem C1_roundtrip (cfg : EncoderConfig) (hv : cfg.Valid)
    (prim : List (List Nat) → Option (List (List Nat)))
    (hp : PrimSpec cfg.data_shards prim) (p : List Nat)
    (h1 : 1 ≤ p.length) (h2 : p.length ≤ 2 ^ 32 - 1) :
    ∃ buf, ReedSolomonCodec.encode cfg prim p = Except.ok buf ∧
      ReedSolomonCodec.decode cfg buf = Except.ok p := by
  obtain ⟨hd1, hp1, hts, hmax⟩ := id hv
  have hd0 : cfg.data_shards ≠ 0 := by omega
  have hlt : p.length < 2 ^ 32 := lt_of_le_of_lt h2 (by norm_num)
  obtain ⟨buf, henc, hblen, hbtake⟩ :=
    encode_ok cfg hv prim hp p h1 (le_trans h2 (by norm_num))
  refine ⟨buf, henc, ?_⟩
  set sz := (p.length + 4 + cfg.data_shards - 1) / cfg.data_shards with hsz
  have hsz1 : 1 ≤ sz := ceil_pos _ _ hd0 (by omega)
  have hLle : p.length + 4 ≤ cfg.data_shards * sz := le_mul_ceil _ _ hd0
  have hbufpos : 0 < buf.length := by
    rw [hblen]
    exact Nat.mul_pos (by omega) (by omega)
  have hbne : buf ≠ [] := by
    intro h0
    rw [h0] at hbufpos
    simp at hbufpos
  have hdvd : buf.length % cfg.total_shards = 0 := by
    rw [hblen]
    exact Nat.mul_mod_right _ _
  have hquot : buf.length / cfg.total_shards = sz := by
    rw [hblen]
    exact Nat.mul_div_cancel_left sz (by omega)
  rw [decode_eq cfg hv buf hbne hdvd, hquot, hbtake]
  have hfr : (writeU32BE p.length ++ p).length = p.length + 4 := by
    rw [List.length_append, writeU32BE_length]
    omega
  have hexlen : ((writeU32BE p.length ++ p)
      ++ List.replicate (cfg.data_shards * sz - (p.length + 4)) 0).length
      = cfg.data_shards * sz := by
    rw [List.length_append, hfr, List.length_replicate]
    omega
  unfold DataProcessor.extract_original_data
  rw [if_neg (by rw [hexlen]; omega)]
  dsimp only
  have htk4 : ((writeU32BE p.length ++ p)
      ++ List.replicate (cfg.data_shards * sz - (p.length + 4)) 0).take 4
      = writeU32BE p.length := by
    rw [List.append_assoc]
    rw [show (4 : Nat) = (writeU32BE p.length).length
      from (writeU32BE_length _).symm]
    exact List.take_left _ _
  rw [htk4, readU32BE_writeU32BE p.length hlt]
  rw [if_neg (by rw [hexlen]; omega)]
  congr 1
  rw [List.append_assoc]
  rw [show (4 : Nat) = (writeU32BE p.length).length
    from (writeU32BE_length _).symm]
  rw [List.drop_left]
  rw [show p.length = ((p : List Nat)).length from rfl]
  exact List.take_left _ _

theorem C1_roundtrip_witness :
    EncoderConfig.Valid ⟨1, 1, 2⟩ ∧ PrimSpec 1 idPrim
    ∧ 1 ≤ ([7] : List Nat).length ∧ ([7] : List Nat).length ≤ 2 ^ 32 - 1
    ∧ ∃ buf, ReedSolomonCodec.encode ⟨1, 1, 2⟩ idPrim [7] = Except.ok buf ∧
        ReedSolomonCodec.decode ⟨1, 1, 2⟩ buf = Except.ok [7] :=
  ⟨by decide, idPrim_spec 1, by decide, by norm_num,
    C1_roundtrip ⟨1, 1, 2⟩ (by decide) idPrim (idPrim_spec 1) [7]
      (by decide) (by norm_num)⟩

/-- Claim C1, counterexample: at the accepted maximum payload length `2^32`
the round-trip fails — encoding the all-zero payload of length `2^32` with
codec `(1,1)` (and the no-op parity filler) succeeds, but decoding the
resulting buffer returns the empty payload, because the `as u32` cast
truncates the 4-byte length prefix of `2^32` to 0. -/
theorem C1_roundtrip_counterexample :
    Except.bind
        (ReedSolomonCodec.encode ⟨1, 1, 2⟩ idPrim (List.replicate (2 ^ 32) 0))
        (ReedSolomonCodec.decode ⟨1, 1, 2⟩) = Except.ok ([] : List Nat)
    ∧ (Except.ok ([] : List Nat) : Except RSError (List Nat))
        ≠ Except.ok (List.replicate (2 ^ 32) (0 : Nat)) := by
  constructor
  · obtain ⟨buf, henc, hblen, hbtake⟩ :=
      encode_ok ⟨1, 1, 2⟩ (by decide) idPrim (idPrim_spec 1)
        (List.replicate (2 ^ 32) 0)
        (by rw [List.length_replicate]; norm_num)
        (by rw [List.length_replicate])
    rw [henc]
    show ReedSolomonCodec.decode ⟨1, 1, 2⟩ buf = Except.ok []
    have hds : (⟨1, 1, 2⟩ : EncoderConfig).data_shards = 1 := rfl
    have hts : (⟨1, 1, 2⟩ : EncoderConfig).total_shards = 2 := rfl
    rw [List.length_replicate] at hblen hbtake
    rw [hds] at hblen hbtake
    rw [hts] at hblen
    rw [show (2 ^ 32 + 4 + 1 - 1) / 1 = 2 ^ 32 + 4 from by omega]
      at hblen hbtake
    rw [Nat.one_mul, Nat.sub_self, List.replicate_zero, List.append_nil]
      at hbtake
    have hbpos : buf ≠ [] := by
      intro h0
      rw [h0] at hblen
      simp only [List.length_nil] at hblen
      omega
    have hdvd : buf.length % (2 : Nat) = 0 := by
      rw [hblen]
      omega
    rw [decode_eq ⟨1, 1, 2⟩ (by decide) buf hbpos hdvd]
    rw [hds, hts]
    rw [show buf.length / 2 = 2 ^ 32 + 4 from by rw [hblen]; omega]
    rw [Nat.one_mul, hbtake]
    have hwlen : (writeU32BE (2 ^ 32)
        ++ List.replicate (2 ^ 32) (0 : Nat)).length = 4 + 2 ^ 32 := by
      rw [List.length_append, writeU32BE_length, List.length_replicate]
    unfold DataProcessor.extract_original_data
    rw [if_neg (by rw [hwlen]; omega)]
    dsimp only
    rw [show (writeU32BE (2 ^ 32)
        ++ List.replicate (2 ^ 32) (0 : Nat)).take 4 = writeU32BE (2 ^ 32) from by
      rw [show (4 : Nat) = (writeU32BE (2 ^ 32)).length
        from (writeU32BE_length _).symm]
      exact List.take_left _ _]
    rw [show readU32BE (writeU32BE (2 ^ 32)) = 0 from rfl]
    rw [if_neg (by omega)]
    rw [List.take_zero]
  · intro h
    injection h with h3
    have h4 := congrArg List.length h3
    rw [List.length_nil, List.length_replicate] at h4
    have hp0 : (0 : Nat) < 2 ^ 32 := by norm_num
    omega

end RSCodec
